import Mathlib

/-!
Verification development for the Screen-Activity-Recorder repository.

Shallow embedding of the core components described by the specification:
the sensitive-span merger, the heuristic PII scanner, the region redactor,
the FAISS-backed vector index store and the activity-capture scheduler.
Python strings are modelled as lists of characters, Python exceptions as an
explicit error type threaded through `Except`, and external library calls
(the embedder, the FAISS k-NN search, the Gaussian blur, the polygon
rasterizer, the regex engine for the non-email patterns) as function
parameters constrained only by the library's documented contract.
-/

/-- Python strings modelled as lists of characters. -/
abbrev Str := List Char

/-- Bool test: the second list is a leading segment of the first
(helper for the substring test below). -/
def leadSeg : Str → Str → Bool
  | _, [] => true
  | [], _ :: _ => false
  | c :: cs, d :: ds => c = d && leadSeg cs ds

/-- Python's substring operator `s in t`: `containsSub t s` holds when `s`
occurs contiguously inside `t` (the empty string occurs everywhere). -/
def containsSub (t s : Str) : Bool :=
  if leadSeg t s then true else
    match t with
    | [] => false
    | _ :: r => containsSub r s

/-- Python's `str.endswith`. -/
def endsWithStr (t suf : Str) : Bool :=
  leadSeg t.reverse suf.reverse

/- ## Sensitive-span merger (src/utils/utils.py, extract_sensitive_sequences) -/

/-- One NER token: `entity_text` and its BIO label `entity_label`
(src/schemas/ner_schemas.py, consumed through NEREntites.to_list). -/
structure NEREntity where
  entity_text : Str
  entity_label : Str
deriving DecidableEq

/-- Python `entity.entity_text.replace("##", "")`: left-to-right removal of
every non-overlapping occurrence of the sub-word continuation marker. -/
def stripContinuation : Str → Str
  | '#' :: '#' :: rest => stripContinuation rest
  | c :: rest => c :: stripContinuation rest
  | [] => []

/-- Python `label.split("-", 1)` restricted to the case used by the code:
`some (before, after)` when a dash occurs, splitting at the first dash;
`none` when the label has no dash. -/
def splitFirstDash : Str → Option (Str × Str)
  | [] => none
  | '-' :: rest => some ([], rest)
  | c :: rest => (splitFirstDash rest).map (fun p => (c :: p.1, p.2))

/-- Loop state of extract_sensitive_sequences: emitted sequences, the open
fragment (list of cleaned token texts) and its type. -/
structure MergeState where
  sequences : List Str
  current : List Str
  curType : Option Str
deriving DecidableEq

/-- One iteration of the token loop of extract_sensitive_sequences
(src/utils/utils.py lines 209-248), translated branch for branch. -/
def mergeStep (ns : List Str) (st : MergeState) (e : NEREntity) : MergeState :=
  let label := e.entity_label
  if label ∈ ns then
    if st.current ≠ [] then ⟨st.sequences ++ [st.current.flatten], [], none⟩ else st
  else
    match splitFirstDash label with
    | none =>
        if st.current ≠ [] then ⟨st.sequences ++ [st.current.flatten], [], none⟩ else st
    | some (tagPre, labelType) =>
        let clean := stripContinuation e.entity_text
        if tagPre = ['B'] then
          ⟨if st.current ≠ [] then st.sequences ++ [st.current.flatten] else st.sequences,
           [clean], some labelType⟩
        else if tagPre = ['I'] then
          if st.curType = some labelType ∧ st.current ≠ [] then
            ⟨st.sequences, st.current ++ [clean], st.curType⟩
          else
            ⟨if st.current ≠ [] then st.sequences ++ [st.current.flatten] else st.sequences,
             [clean], some labelType⟩
        else
          st

/-- extract_sensitive_sequences (src/utils/utils.py lines 189-254): fold the
token loop over the entities, then flush the still-open fragment. -/
def extract_sensitive_sequences (ents : List NEREntity) (ns : List Str) : List Str :=
  let st := ents.foldl (mergeStep ns) ⟨[], [], none⟩
  if st.current ≠ [] then st.sequences ++ [st.current.flatten] else st.sequences

/-- Modelled from the spec: the merger as the specification words it, where a
token whose label has a dash but a prefix other than B/I also closes any open
fragment and clears the state (spec 4.1: "Label has no recognizable B- or I-
prefix, treat as non-sensitive (close and clear)").  Used only as the
reference point for comparing the source behaviour on such labels. -/
def mergeStepSpec (ns : List Str) (st : MergeState) (e : NEREntity) : MergeState :=
  let label := e.entity_label
  if label ∈ ns then
    if st.current ≠ [] then ⟨st.sequences ++ [st.current.flatten], [], none⟩ else st
  else
    match splitFirstDash label with
    | none =>
        if st.current ≠ [] then ⟨st.sequences ++ [st.current.flatten], [], none⟩ else st
    | some (tagPre, labelType) =>
        let clean := stripContinuation e.entity_text
        if tagPre = ['B'] then
          ⟨if st.current ≠ [] then st.sequences ++ [st.current.flatten] else st.sequences,
           [clean], some labelType⟩
        else if tagPre = ['I'] then
          if st.curType = some labelType ∧ st.current ≠ [] then
            ⟨st.sequences, st.current ++ [clean], st.curType⟩
          else
            ⟨if st.current ≠ [] then st.sequences ++ [st.current.flatten] else st.sequences,
             [clean], some labelType⟩
        else
          if st.current ≠ [] then ⟨st.sequences ++ [st.current.flatten], [], none⟩ else st

/-- Modelled from the spec: whole-sequence version of `mergeStepSpec`. -/
def extract_sensitive_sequences_spec (ents : List NEREntity) (ns : List Str) : List Str :=
  let st := ents.foldl (mergeStepSpec ns) ⟨[], [], none⟩
  if st.current ≠ [] then st.sequences ++ [st.current.flatten] else st.sequences

/-- C7: the merger on the reference input from the specification yields the
two fragments Johnson and 30, in that order. -/
theorem c7_merger_reference_case :
    extract_sensitive_sequences
      [⟨"John".toList, "B-FIRSTNAME".toList⟩,
       ⟨"##son".toList, "I-FIRSTNAME".toList⟩,
       ⟨"is".toList, "O".toList⟩,
       ⟨"30".toList, "B-AGE".toList⟩]
      ["O".toList]
    = ["Johnson".toList, "30".toList] := by decide

/-- C8 counterexample: on the token sequence a/B-NAME, x/X-NAME, b/I-NAME the
source merger leaves the open fragment intact across the X-NAME token (whose
label has a dash but an unrecognized prefix) and therefore merges a and b into
one fragment "ab", while the close-and-clear behaviour the claim describes
(the spec-modelled merger) yields the two fragments "a", "b". -/
theorem c8_unknown_dash_label_counterexample :
    extract_sensitive_sequences
      [⟨"a".toList, "B-NAME".toList⟩,
       ⟨"x".toList, "X-NAME".toList⟩,
       ⟨"b".toList, "I-NAME".toList⟩] []
    = ["ab".toList]
    ∧ extract_sensitive_sequences_spec
      [⟨"a".toList, "B-NAME".toList⟩,
       ⟨"x".toList, "X-NAME".toList⟩,
       ⟨"b".toList, "I-NAME".toList⟩] []
    = ["a".toList, "b".toList]
    ∧ ("ab".toList : Str) ≠ "a".toList := by decide

/-- C8 amended: a token whose label is not in the non-sensitive set and has no
dash closes and clears the open fragment, but a token whose label has a dash
with a prefix other than B and I is skipped with the merger state (open
fragment and its type) left completely unchanged. -/
theorem c8_unknown_label_rule_amended (ns : List Str) (st : MergeState) (e : NEREntity)
    (hns : e.entity_label ∉ ns) :
    (splitFirstDash e.entity_label = none →
      mergeStep ns st e =
        (if st.current ≠ [] then ⟨st.sequences ++ [st.current.flatten], [], none⟩ else st))
    ∧ (∀ tagPre labelType, splitFirstDash e.entity_label = some (tagPre, labelType) →
        tagPre ≠ ['B'] → tagPre ≠ ['I'] → mergeStep ns st e = st) := by
  constructor
  · intro hsplit
    simp [mergeStep, hns, hsplit]
  · intro tagPre labelType hsplit hB hI
    simp [mergeStep, hns, hsplit, hB, hI]

/-- C8 amended, witness at a concrete token and state. -/
theorem c8_unknown_label_rule_amended_witness :
    ("X-NAME".toList : Str) ∉ ([] : List Str)
    ∧ ((splitFirstDash ("X-NAME".toList) = none →
        mergeStep [] ⟨[], ["a".toList], some "NAME".toList⟩ ⟨"x".toList, "X-NAME".toList⟩ =
          (if (["a".toList] : List Str) ≠ [] then
            ⟨[] ++ [(["a".toList] : List Str).flatten], [], none⟩
           else ⟨[], ["a".toList], some "NAME".toList⟩))
      ∧ (∀ tagPre labelType, splitFirstDash ("X-NAME".toList) = some (tagPre, labelType) →
          tagPre ≠ ['B'] → tagPre ≠ ['I'] →
          mergeStep [] ⟨[], ["a".toList], some "NAME".toList⟩ ⟨"x".toList, "X-NAME".toList⟩ =
            ⟨[], ["a".toList], some "NAME".toList⟩)) :=
  ⟨by decide,
   c8_unknown_label_rule_amended [] ⟨[], ["a".toList], some "NAME".toList⟩
     ⟨"x".toList, "X-NAME".toList⟩ (by decide)⟩

/- ## Vector index store (src/services/index_manager.py, FaissIndexManager) -/

/-- Python exceptions raised by the modelled code paths. -/
inductive PyErr
  /-- The bare `raise "No index was created neither loaded"` in add_text and
  add_texts (raising a string is itself a TypeError at runtime, but either way
  an exception that aborts the operation; the spec calls it IndexNotReady). -/
  | indexNotReady
  /-- ValueError("texts and metadatas must have the same length.") -/
  | lengthMismatch
  /-- ValueError("No index to save") in save_index. -/
  | noIndexToSave
  /-- os.path.abspath(None) in save_index when no session path is set. -/
  | typeError
  /-- Any failure of os.makedirs or joblib.dump while persisting. -/
  | persistError
  /-- FileNotFoundError in load_index. -/
  | fileNotFound
  /-- Any failure of joblib.load, or a loaded object without an index key. -/
  | loadError
  /-- KeyError from a metadata dict without an activity key. -/
  | keyError
  /-- ValueError("Index is empty. Add texts first.") in search_by_text. -/
  | indexEmpty
  /-- IndexError from a Python list subscript out of range. -/
  | indexError
deriving DecidableEq

/-- In-memory state of FaissIndexManager.  The FAISS index is modelled as the
list of stored vectors (faiss Index.add appends rows); `none` models
self.index is None.  A metadata dict is modelled by its optional activity
entry (`none` models a dict without the activity key); the other keys of the
dict play no role in the modelled code paths. -/
structure IndexState (V A : Type) where
  index : Option (List V)
  metadata_store : List (Option A)
  dim : Nat
  current_index_file_path : Option Str
deriving DecidableEq

/-- The state in which an operation left the manager, whether it returned or
raised (the error value carries the state at the raise point). -/
def stateOf {V A : Type} (r : Except (PyErr × IndexState V A) (IndexState V A)) :
    IndexState V A :=
  match r with
  | .ok s => s
  | .error (_, s) => s

/-- Parallel-array invariant of the store: the metadata list is exactly as
long as the vector container (zero when no index is loaded). -/
def indexInv {V A : Type} (s : IndexState V A) : Prop :=
  s.metadata_store.length = (match s.index with | none => 0 | some vecs => vecs.length)

/-- FaissIndexManager.save_index (lines 74-101).  Persisting happens outside
the in-memory state; `saveOk` is the oracle for whether the directory creation
and joblib.dump succeed.  The in-memory containers are never touched. -/
def save_index {V A : Type} (saveOk : Bool) (s : IndexState V A) :
    Except (PyErr × IndexState V A) (IndexState V A) :=
  match s.index with
  | none => .error (.noIndexToSave, s)
  | some _ =>
    match s.current_index_file_path with
    | none => .error (.typeError, s)
    | some _ => if saveOk then .ok s else .error (.persistError, s)

/-- FaissIndexManager.add_text (lines 22-33): embed, check the index, append
the vector, append the metadata, persist. -/
def add_text {V A : Type} (embed : Str → V) (saveOk : Bool) (s : IndexState V A)
    (text : Str) (md : Option A) : Except (PyErr × IndexState V A) (IndexState V A) :=
  let e := embed text
  match s.index with
  | none => .error (.indexNotReady, s)
  | some vecs =>
    save_index saveOk
      { s with index := some (vecs ++ [e]), metadata_store := s.metadata_store ++ [md] }

/-- FaissIndexManager.add_texts (lines 35-50): length check first, then embed
all texts, check the index, extend both containers; no persist call. -/
def add_texts {V A : Type} (embed : Str → V) (s : IndexState V A)
    (texts : List Str) (metadatas : List (Option A)) :
    Except (PyErr × IndexState V A) (IndexState V A) :=
  if texts.length ≠ metadatas.length then .error (.lengthMismatch, s)
  else
    let es := texts.map embed
    match s.index with
    | none => .error (.indexNotReady, s)
    | some vecs =>
      .ok { s with index := some (vecs ++ es), metadata_store := s.metadata_store ++ metadatas }

/-- C1: the parallel-array invariant.  A successful add_text appends exactly
one vector and one metadata entry; the invariant holds after add_text whether
it returns or raises.  A successful add_texts appends equally many vectors and
metadata entries, a length mismatch raises with both containers untouched, and
the invariant holds after add_texts whether it returns or raises. -/
theorem c1_parallel_array_invariant {V A : Type} (embed : Str → V) (saveOk : Bool)
    (s : IndexState V A) (text : Str) (md : Option A)
    (texts : List Str) (metadatas : List (Option A)) (hinv : indexInv s) :
    (∀ s2, add_text embed saveOk s text md = .ok s2 →
      s2.index = some (s.index.getD [] ++ [embed text]) ∧
      s2.metadata_store = s.metadata_store ++ [md])
    ∧ indexInv (stateOf (add_text embed saveOk s text md))
    ∧ (∀ s2, add_texts embed s texts metadatas = .ok s2 →
      texts.length = metadatas.length ∧
      s2.index = some (s.index.getD [] ++ texts.map embed) ∧
      s2.metadata_store = s.metadata_store ++ metadatas)
    ∧ (texts.length ≠ metadatas.length →
      add_texts embed s texts metadatas = .error (.lengthMismatch, s))
    ∧ indexInv (stateOf (add_texts embed s texts metadatas)) := by
  refine ⟨?_, ?_, ?_, ?_, ?_⟩
  · intro s2 h
    cases hidx : s.index with
    | none => simp [add_text, hidx] at h
    | some vecs =>
      simp [add_text, save_index, hidx] at h
      cases hp : s.current_index_file_path with
      | none => simp [hp] at h
      | some p =>
        simp [hp] at h
        cases saveOk with
        | false => simp at h
        | true => simp at h; simp [← h, hidx]
  · cases hidx : s.index with
    | none => simp [add_text, hidx, stateOf, indexInv, hidx] at hinv ⊢; simp [hinv]
    | some vecs =>
      simp [indexInv, hidx] at hinv
      cases hp : s.current_index_file_path with
      | none => simp [add_text, save_index, hidx, hp, stateOf, indexInv, hinv]
      | some p =>
        cases saveOk with
        | false => simp [add_text, save_index, hidx, hp, stateOf, indexInv, hinv]
        | true => simp [add_text, save_index, hidx, hp, stateOf, indexInv, hinv]
  · intro s2 h
    by_cases hlen : texts.length = metadatas.length
    · cases hidx : s.index with
      | none => simp [add_texts, hlen, hidx] at h
      | some vecs => simp [add_texts, hlen, hidx] at h; simp [← h, hidx, hlen]
    · simp [add_texts, hlen] at h
  · intro hlen
    simp [add_texts, hlen]
  · by_cases hlen : texts.length = metadatas.length
    · cases hidx : s.index with
      | none => simp [add_texts, hlen, hidx, stateOf, indexInv] at hinv ⊢; simp [hinv]
      | some vecs =>
        simp [indexInv, hidx] at hinv
        simp [add_texts, hlen, hidx, stateOf, indexInv, hinv]
    · simp [add_texts, hlen, stateOf]
      exact hinv

/-- C1, witness: the invariant hypothesis and the two invariant-preservation
conclusions at a concrete store, text and batch. -/
theorem c1_parallel_array_invariant_witness :
    indexInv (⟨some [0], [some 1], 1, some "s".toList⟩ : IndexState Nat Nat)
    ∧ indexInv (stateOf (add_text (fun _ => (0 : Nat)) true
        ⟨some [0], [some 1], 1, some "s".toList⟩ "t".toList (some 2)))
    ∧ indexInv (stateOf (add_texts (fun _ => (0 : Nat))
        ⟨some [0], [some 1], 1, some "s".toList⟩ ["a".toList] [some 3])) :=
  ⟨rfl,
   (c1_parallel_array_invariant (fun _ => (0 : Nat)) true
     (⟨some [0], [some 1], 1, some "s".toList⟩ : IndexState Nat Nat)
     "t".toList (some 2) ["a".toList] [some 3] rfl).2.1,
   (c1_parallel_array_invariant (fun _ => (0 : Nat)) true
     (⟨some [0], [some 1], 1, some "s".toList⟩ : IndexState Nat Nat)
     "t".toList (some 2) ["a".toList] [some 3] rfl).2.2.2.2⟩

/-- C3 counterexample: an add_text whose persist step fails leaves the
in-memory containers in the appended post-write state, not the pre-write
state the claim requires (the vector list and metadata list both already hold
the new entry when the error propagates). -/
theorem c3_persist_failure_counterexample :
    add_text (fun _ => (0 : Nat)) false
        ⟨some [0], [some 1], 1, some "s".toList⟩ "t".toList (some 2)
      = .error (.persistError, ⟨some [0, 0], [some 1, some 2], 1, some "s".toList⟩)
    ∧ ([some 1, some 2] : List (Option Nat)) ≠ [some 1] := ⟨rfl, by decide⟩

/-- C3 amended: when the persist step of add_text fails, the in-memory state
is the post-write state with exactly one vector and one metadata entry
appended to each container (so the parallel-array invariant is preserved and
no partial write is visible), but it is not rolled back to the pre-write
state. -/
theorem c3_persist_failure_amended {V A : Type} (embed : Str → V) (s : IndexState V A)
    (text : Str) (md : Option A) (vecs : List V) (p : Str)
    (hidx : s.index = some vecs) (hp : s.current_index_file_path = some p) :
    add_text embed false s text md =
      .error (.persistError,
        { s with index := some (vecs ++ [embed text]),
                 metadata_store := s.metadata_store ++ [md] })
    ∧ (indexInv s → indexInv (stateOf (add_text embed false s text md))) := by
  constructor
  · simp [add_text, save_index, hidx, hp]
  · intro hinv
    simp [indexInv, hidx] at hinv
    simp [add_text, save_index, hidx, hp, stateOf, indexInv, hinv]

/-- C3 amended, witness at a concrete store. -/
theorem c3_persist_failure_amended_witness :
    (⟨some [0], [some 1], 1, some "s".toList⟩ : IndexState Nat Nat).index = some [0]
    ∧ (⟨some [0], [some 1], 1, some "s".toList⟩ :
        IndexState Nat Nat).current_index_file_path = some "s".toList
    ∧ (add_text (fun _ => (0 : Nat)) false
          ⟨some [0], [some 1], 1, some "s".toList⟩ "t".toList (some 2) =
        .error (.persistError,
          { (⟨some [0], [some 1], 1, some "s".toList⟩ : IndexState Nat Nat) with
              index := some ([0] ++ [(fun _ => (0 : Nat)) "t".toList]),
              metadata_store := [some 1] ++ [some 2] })
      ∧ (indexInv (⟨some [0], [some 1], 1, some "s".toList⟩ : IndexState Nat Nat) →
          indexInv (stateOf (add_text (fun _ => (0 : Nat)) false
            ⟨some [0], [some 1], 1, some "s".toList⟩ "t".toList (some 2))))) :=
  ⟨rfl, rfl,
   c3_persist_failure_amended (fun _ => (0 : Nat)) ⟨some [0], [some 1], 1, some "s".toList⟩
     "t".toList (some 2) [0] "s".toList rfl rfl⟩

/-- C4: add_text with no index loaded raises (the operation aborts with the
IndexNotReady failure, modelled by the error value, rather than crashing the
process, modelled by the total Except result) and the error value carries the
unchanged state, so the metadata store is untouched. -/
theorem c4_add_text_index_not_ready {V A : Type} (embed : Str → V) (saveOk : Bool)
    (s : IndexState V A) (text : Str) (md : Option A) (h : s.index = none) :
    add_text embed saveOk s text md = .error (.indexNotReady, s) := by
  simp [add_text, h]

/-- C4, witness at a concrete empty manager. -/
theorem c4_add_text_index_not_ready_witness :
    (⟨none, [], 4, none⟩ : IndexState Nat Nat).index = none
    ∧ add_text (fun _ => (0 : Nat)) true
        (⟨none, [], 4, none⟩ : IndexState Nat Nat) "t".toList (some 5) =
      .error (.indexNotReady, ⟨none, [], 4, none⟩) :=
  ⟨rfl, c4_add_text_index_not_ready (fun _ => (0 : Nat)) true ⟨none, [], 4, none⟩
    "t".toList (some 5) rfl⟩

/-- The list comprehension of FaissIndexManager.get_activities_metadata
(lines 137-141): reads the activity entry of each metadata dict in order,
raising KeyError at the first dict without one. -/
def activitiesOf {A : Type} : List (Option A) → Except PyErr (List A)
  | [] => .ok []
  | none :: _ => .error .keyError
  | some a :: rest => (activitiesOf rest).map (fun l => a :: l)

/-- FaissIndexManager.get_activities_metadata. -/
def get_activities_metadata {V A : Type} (s : IndexState V A) : Except PyErr (List A) :=
  activitiesOf s.metadata_store

/-- Python list subscript `l[i]` with an int index: non-negative indices read
from the front, negative indices count from the end, IndexError otherwise. -/
def pyListGet {α : Type} (l : List α) (i : Int) : Except PyErr α :=
  if 0 ≤ i then
    match l.get? i.toNat with
    | some a => .ok a
    | none => .error .indexError
  else if 0 ≤ i + l.length then
    match l.get? (i + l.length).toNat with
    | some a => .ok a
    | none => .error .indexError
  else .error .indexError

/-- The result loop of FaissIndexManager.search_by_text (lines 157-160): for
each neighbor label, if it is less than the metadata length, append the
activity entry of the metadata dict at that Python subscript. -/
def search_collect {A : Type} (md : List (Option A)) : List Int → Except PyErr (List A)
  | [] => .ok []
  | i :: rest =>
    if i < (md.length : Int) then
      match pyListGet md i with
      | .error e => .error e
      | .ok none => .error .keyError
      | .ok (some a) => (search_collect md rest).map (fun l => a :: l)
    else search_collect md rest

/-- FaissIndexManager.search_by_text (lines 145-163).  The FAISS k-NN call is
the oracle `knn`, which returns the neighbor labels for the stored vectors, a
query and k; FAISS pads with the sentinel label -1 when the index holds fewer
than k vectors. -/
def search_by_text {V A : Type} (embed : Str → V) (knn : List V → V → Nat → List Int)
    (s : IndexState V A) (query : Str) (k : Nat) :
    Except (PyErr × IndexState V A) (List A) :=
  match s.index with
  | none => .error (.indexEmpty, s)
  | some vecs =>
    match search_collect s.metadata_store (knn vecs (embed query) k) with
    | .error e => .error (e, s)
    | .ok l => .ok l

/-- C5: with two stored vectors, two metadata entries and k = 5, FAISS pads
the neighbor labels with the sentinel -1; the guard idx < len(metadata) does
not skip -1, and the Python subscript metadata_store[-1] selects the last
entry, so the search returns the last activity three extra times instead of
skipping the out-of-bounds neighbors. -/
theorem c5_out_of_bounds_neighbor_contributes :
    search_by_text (fun _ => (0 : Nat)) (fun _ _ _ => [0, 1, -1, -1, -1])
        ⟨some [0, 0], [some 10, some 11], 1, some "s".toList⟩ "q".toList 5
      = .ok [10, 11, 11, 11, 11]
    ∧ ([10, 11, 11, 11, 11] : List Nat) ≠ [10, 11] := ⟨rfl, by decide⟩

/- ## Session load (FaissIndexManager.load_index, ActivityManager.load_session) -/

/-- Python path normalization used by both the manager and the scheduler:
append the canonical extension when missing. -/
def normPath (p : Str) : Str :=
  if endsWithStr p ".joblib".toList then p else p ++ ".joblib".toList

/-- What joblib.load can produce at a path: a failure of deserialization (or a
loaded object without an index entry, which raises before any field is
assigned), or a loaded dict with the index vectors, the metadata list
(data.get defaults to the empty list) and the optional dim entry.  The
faiss_version entry only drives a printed warning and is not modelled. -/
inductive FileData (V A : Type)
  | corrupt
  | good (vecs : List V) (metadata : List (Option A)) (dimEntry : Option Nat)

/-- FaissIndexManager.load_index (lines 103-133): normalize the path, check
existence, deserialize, assign index / metadata_store / dim / path in order,
then build the Activities return value, which raises KeyError on a metadata
dict without an activity entry AFTER the fields were assigned.  The
filesystem is the map fs from paths to their contents. -/
def load_index {V A : Type} (fs : Str → Option (FileData V A)) (s : IndexState V A)
    (path : Str) : Except (PyErr × IndexState V A) (List A × IndexState V A) :=
  let p := normPath path
  match fs p with
  | none => .error (.fileNotFound, s)
  | some .corrupt => .error (.loadError, s)
  | some (.good vecs metadata dimEntry) =>
    let s1 : IndexState V A :=
      { index := some vecs, metadata_store := metadata,
        dim := dimEntry.getD s.dim, current_index_file_path := some p }
    match get_activities_metadata s1 with
    | .ok acts => .ok (acts, s1)
    | .error e => .error (e, s1)

/-- In-memory state of ActivityManager restricted to what the modelled
operations read and write: the recording flag of RecordingState, the index
manager, the session activities snapshot and the last inserted application
activity.  Thread handles, timers and the stop event are real time and
concurrency and stay outside the model; start_recording and stop_recording
are modelled by their effect on is_active. -/
structure AMState (V A : Type) where
  is_active : Bool
  faiss : IndexState V A
  session_activites : List A
  last_app_activity : Option A
deriving DecidableEq

/-- ActivityManager.load_session (src/core/activity_manager.py lines
156-185): normalize the path, remember whether recording was active, stop
recording, try to load; on success install the new activities snapshot and
restart recording if it was active; on failure restart recording if it was
active and re-raise. -/
def load_session {V A : Type} (fs : Str → Option (FileData V A)) (st : AMState V A)
    (session_path : Str) : Except (PyErr × AMState V A) (AMState V A) :=
  let p := normPath session_path
  let was_recording := st.is_active
  let st1 := if was_recording then { st with is_active := false } else st
  match load_index fs st1.faiss p with
  | .ok (acts, f2) =>
    let st2 := { st1 with faiss := f2, session_activites := acts }
    .ok (if was_recording then { st2 with is_active := true } else st2)
  | .error (e, f2) =>
    let st2 := { st1 with faiss := f2 }
    .error (e, if was_recording then { st2 with is_active := true } else st2)

/-- C2 counterexample: a session file whose metadata dicts lack the activity
entry makes load_index raise only after it has installed the file's index and
metadata, so a failed load_session re-activates recording but does NOT leave
the in-memory session (index and metadata) the same as before the call. -/
theorem c2_rollback_counterexample :
    load_session
        (fun p => if p = normPath "bad".toList
          then some (.good [7] [none] none) else none)
        (⟨true, ⟨some [0], [some 1], 1, some "old.joblib".toList⟩, [1], none⟩ :
          AMState Nat Nat)
        "bad".toList
      = .error (.keyError,
          ⟨true, ⟨some [7], [none], 1, some (normPath "bad".toList)⟩, [1], none⟩)
    ∧ (⟨some [7], [none], 1, some (normPath "bad".toList)⟩ : IndexState Nat Nat)
        ≠ ⟨some [0], [some 1], 1, some "old.joblib".toList⟩ := by
  constructor
  · rfl
  · decide

/-- C2 amended: when load_session raises and recording was active before the
call, after the call is_active is true again (the scheduler is never left
silently stopped), the session activities snapshot and the last inserted app
activity are unchanged, and the in-memory index manager is additionally
unchanged whenever the load failed before installing the file's contents
(missing file, or a deserialization failure). -/
theorem c2_session_switch_rollback_amended {V A : Type} (fs : Str → Option (FileData V A))
    (st : AMState V A) (p : Str) (e : PyErr) (st2 : AMState V A)
    (hact : st.is_active = true)
    (herr : load_session fs st p = .error (e, st2)) :
    st2.is_active = true
    ∧ st2.session_activites = st.session_activites
    ∧ st2.last_app_activity = st.last_app_activity
    ∧ ((fs (normPath (normPath p)) = none ∨ fs (normPath (normPath p)) = some .corrupt) →
        st2.faiss = st.faiss) := by
  cases hfs : fs (normPath (normPath p)) with
  | none =>
    simp [load_session, load_index, hact, hfs] at herr
    simp [← herr.2]
  | some fd =>
    cases fd with
    | corrupt =>
      simp [load_session, load_index, hact, hfs] at herr
      simp [← herr.2]
    | good vecs metadata dimEntry =>
      simp only [load_session, load_index, hact, if_true, hfs] at herr
      cases hga : activitiesOf metadata with
      | ok acts => simp [get_activities_metadata, hga] at herr
      | error e2 =>
        simp [get_activities_metadata, hga] at herr
        simp [← herr.2, hfs]

/-- C2 amended, witness: load_session on a missing session file while
recording. -/
theorem c2_session_switch_rollback_amended_witness :
    (⟨true, ⟨some [0], [some 1], 1, some "old.joblib".toList⟩, [1], none⟩ :
        AMState Nat Nat).is_active = true
    ∧ load_session (fun _ => none)
        (⟨true, ⟨some [0], [some 1], 1, some "old.joblib".toList⟩, [1], none⟩ :
          AMState Nat Nat) "gone".toList
      = .error (.fileNotFound,
          ⟨true, ⟨some [0], [some 1], 1, some "old.joblib".toList⟩, [1], none⟩)
    ∧ ((⟨true, ⟨some [0], [some 1], 1, some "old.joblib".toList⟩, [1], none⟩ :
          AMState Nat Nat).is_active = true
      ∧ (⟨true, ⟨some [0], [some 1], 1, some "old.joblib".toList⟩, [1], none⟩ :
          AMState Nat Nat).session_activites = [1]
      ∧ (⟨true, ⟨some [0], [some 1], 1, some "old.joblib".toList⟩, [1], none⟩ :
          AMState Nat Nat).last_app_activity = none
      ∧ (((fun (_ : Str) => (none : Option (FileData Nat Nat)))
            (normPath (normPath "gone".toList)) = none ∨
          (fun (_ : Str) => (none : Option (FileData Nat Nat)))
            (normPath (normPath "gone".toList)) = some .corrupt) →
          (⟨some [0], [some 1], 1, some "old.joblib".toList⟩ : IndexState Nat Nat) =
            ⟨some [0], [some 1], 1, some "old.joblib".toList⟩)) := by
  refine ⟨rfl, rfl, ?_⟩
  have h := c2_session_switch_rollback_amended (fun _ => none)
    (⟨true, ⟨some [0], [some 1], 1, some "old.joblib".toList⟩, [1], none⟩ : AMState Nat Nat)
    "gone".toList .fileNotFound
    (⟨true, ⟨some [0], [some 1], 1, some "old.joblib".toList⟩, [1], none⟩ : AMState Nat Nat)
    rfl rfl
  exact h

/- ## Application poller step (ActivityManager._record_app_activity) -/

/-- The fields of an ApplicationActivity read by the poller step: the
(process name, window title) pair used for duplicate suppression and the
keyword string passed to the embedder.  The remaining fields (paths, duration,
timestamp) do not influence the modelled control flow. -/
structure AppAct where
  app_name : Str
  window_title : Str
  keywords : Str
deriving DecidableEq

/-- One pass of the insert logic of ActivityManager._record_app_activity
(src/core/activity_manager.py lines 83-99) for an observed activity: insert
only when there is no previous inserted activity or the (process name, window
title) pair changed; on insert, add_text into the index manager, refresh the
session activities snapshot and update last_app_activity.  Returns whether an
insert happened; a raise (which the surrounding try/except turns into a
thread exit) carries the state at the raise point.  The wall-clock interval
check and the recorder's last_switch_time update are real time and stay
outside the model. -/
def record_app_step {V : Type} (embed : Str → V) (saveOk : Bool)
    (st : AMState V AppAct) (activity : AppAct) :
    Except (PyErr × AMState V AppAct) (Bool × AMState V AppAct) :=
  let should :=
    match st.last_app_activity with
    | none => true
    | some la => activity.app_name != la.app_name || activity.window_title != la.window_title
  if should then
    match add_text embed saveOk st.faiss activity.keywords (some activity) with
    | .error (e, f2) => .error (e, { st with faiss := f2 })
    | .ok f2 =>
      match get_activities_metadata f2 with
      | .error e => .error (e, { st with faiss := f2 })
      | .ok acts =>
        .ok (true, { st with
          faiss := f2
          session_activites := acts
          last_app_activity := some activity })
  else .ok (false, st)

/-- A run of consecutive poller passes over a list of observations, counting
how many ApplicationActivity inserts happened. -/
def record_app_run {V : Type} (embed : Str → V) (saveOk : Bool) :
    AMState V AppAct → List AppAct →
    Except (PyErr × AMState V AppAct) (Nat × AMState V AppAct)
  | st, [] => .ok (0, st)
  | st, a :: rest =>
    match record_app_step embed saveOk st a with
    | .error e => .error e
    | .ok (b, st2) =>
      match record_app_run embed saveOk st2 rest with
      | .error e => .error e
      | .ok (n, st3) => .ok ((if b then n + 1 else n), st3)

/-- Observations matching the previously inserted (process, title) pair are
all suppressed: the poller inserts nothing and the state is unchanged. -/
theorem record_app_run_same {V : Type} (embed : Str → V) (saveOk : Bool) :
    ∀ (l : List AppAct) (st : AMState V AppAct) (la : AppAct),
      st.last_app_activity = some la →
      (∀ x ∈ l, x.app_name = la.app_name ∧ x.window_title = la.window_title) →
      record_app_run embed saveOk st l = .ok (0, st)
  | [], _, _, _, _ => rfl
  | a :: rest, st, la, hlast, hx => by
    have h1 := (hx a (List.mem_cons_self a rest)).1
    have h2 := (hx a (List.mem_cons_self a rest)).2
    have hstep : record_app_step embed saveOk st a = .ok (false, st) := by
      simp [record_app_step, hlast, h1, h2]
    have hrest := record_app_run_same embed saveOk rest st la hlast
      (fun x hx2 => hx x (List.mem_cons_of_mem a hx2))
    simp [record_app_run, hstep, hrest]

/-- A metadata list whose dicts all carry an activity entry yields a
successful Activities read. -/
theorem activitiesOf_all_some {A : Type} :
    ∀ (l : List (Option A)), (∀ m ∈ l, m ≠ none) → ∃ acts, activitiesOf l = .ok acts
  | [], _ => ⟨[], rfl⟩
  | none :: _, h => absurd rfl (h none (List.mem_cons_self _ _))
  | some a :: rest, h => by
    obtain ⟨acts, hacts⟩ := activitiesOf_all_some rest
      (fun m hm => h m (List.mem_cons_of_mem _ hm))
    exact ⟨a :: acts, by simp [activitiesOf, hacts, Except.map]⟩

/-- C9: duplicate suppression.  For a run of consecutive observations all
showing the same (process name, window title) pair, starting from a state
whose previously inserted activity (if any) shows a different pair and whose
store is ready (index loaded, session path set, persistence succeeding, all
stored metadata carrying activity entries), exactly one ApplicationActivity
is inserted: the run yields insert count 1, the metadata store grows by
exactly one entry, and the last inserted activity becomes the first
observation of the run. -/
theorem c9_duplicate_suppression {V : Type} (embed : Str → V) (st : AMState V AppAct)
    (vecs : List V) (p : Str) (nm tl : Str) (a : AppAct) (rest : List AppAct)
    (hidx : st.faiss.index = some vecs)
    (hpath : st.faiss.current_index_file_path = some p)
    (hmeta : ∀ m ∈ st.faiss.metadata_store, m ≠ none)
    (hobs : ∀ x ∈ a :: rest, x.app_name = nm ∧ x.window_title = tl)
    (hlast : ∀ la, st.last_app_activity = some la →
        la.app_name ≠ nm ∨ la.window_title ≠ tl) :
    ∃ st3, record_app_run embed true st (a :: rest) = .ok (1, st3)
      ∧ st3.faiss.metadata_store.length = st.faiss.metadata_store.length + 1
      ∧ st3.last_app_activity = some a := by
  obtain ⟨hnm, htl⟩ := hobs a (List.mem_cons_self a rest)
  have hadd : add_text embed true st.faiss a.keywords (some a) =
      .ok { st.faiss with
        index := some (vecs ++ [embed a.keywords])
        metadata_store := st.faiss.metadata_store ++ [some a] } := by
    simp [add_text, save_index, hidx, hpath]
  have hall : ∀ m ∈ st.faiss.metadata_store ++ [some a], m ≠ none := by
    intro m hm
    rcases List.mem_append.mp hm with hm | hm
    · exact hmeta m hm
    · simp at hm; simp [hm]
  obtain ⟨acts, hacts⟩ := activitiesOf_all_some _ hall
  refine ⟨{ st with
      faiss := { st.faiss with
        index := some (vecs ++ [embed a.keywords])
        metadata_store := st.faiss.metadata_store ++ [some a] }
      session_activites := acts
      last_app_activity := some a }, ?_, ?_, ?_⟩
  · have hstep : record_app_step embed true st a =
        .ok (true, { st with
          faiss := { st.faiss with
            index := some (vecs ++ [embed a.keywords])
            metadata_store := st.faiss.metadata_store ++ [some a] }
          session_activites := acts
          last_app_activity := some a }) := by
      cases hl : st.last_app_activity with
      | none => simp [record_app_step, hl, hadd, get_activities_metadata, hacts]
      | some la =>
        rcases hlast la hl with hd | hd
        · have hne : a.app_name ≠ la.app_name := fun he => hd (he.symm.trans hnm)
          simp [record_app_step, hl, hadd, get_activities_metadata, hacts, hne]
        · have hne : a.window_title ≠ la.window_title := fun he => hd (he.symm.trans htl)
          simp [record_app_step, hl, hadd, get_activities_metadata, hacts, hne]
    have hrest := record_app_run_same embed true rest
      { st with
        faiss := { st.faiss with
          index := some (vecs ++ [embed a.keywords])
          metadata_store := st.faiss.metadata_store ++ [some a] }
        session_activites := acts
        last_app_activity := some a } a rfl
      (fun x hx => by
        obtain ⟨h1, h2⟩ := hobs x (List.mem_cons_of_mem a hx)
        exact ⟨h1.trans hnm.symm, h2.trans htl.symm⟩)
    simp [record_app_run, hstep, hrest]
  · simp
  · rfl

/-- C9, witness: three consecutive observations of the same window starting
from a fresh session insert exactly one activity. -/
theorem c9_duplicate_suppression_witness :
    ((⟨true, ⟨some [], [], 1, some "s".toList⟩, [], none⟩ :
        AMState Nat AppAct).faiss.index = some []
    ∧ (∀ m ∈ (⟨true, ⟨some [], [], 1, some "s".toList⟩, [], none⟩ :
        AMState Nat AppAct).faiss.metadata_store, m ≠ none))
    ∧ ∃ st3, record_app_run (fun _ => (0 : Nat)) true
        (⟨true, ⟨some [], [], 1, some "s".toList⟩, [], none⟩ : AMState Nat AppAct)
        [⟨"app".toList, "win".toList, "kw".toList⟩,
         ⟨"app".toList, "win".toList, "kw".toList⟩,
         ⟨"app".toList, "win".toList, "kw".toList⟩] = .ok (1, st3)
      ∧ st3.faiss.metadata_store.length =
          (⟨true, ⟨some [], [], 1, some "s".toList⟩, [], none⟩ :
            AMState Nat AppAct).faiss.metadata_store.length + 1
      ∧ st3.last_app_activity = some ⟨"app".toList, "win".toList, "kw".toList⟩ :=
  ⟨⟨rfl, by simp⟩,
   c9_duplicate_suppression (fun _ => (0 : Nat))
     (⟨true, ⟨some [], [], 1, some "s".toList⟩, [], none⟩ : AMState Nat AppAct)
     [] "s".toList "app".toList "win".toList
     ⟨"app".toList, "win".toList, "kw".toList⟩
     [⟨"app".toList, "win".toList, "kw".toList⟩, ⟨"app".toList, "win".toList, "kw".toList⟩]
     rfl rfl (by simp) (by decide) (by simp)⟩

/- ## Region redactor (src/utils/utils.py, blur_regions_with_bboxs) -/

/-- A raster image: width, height and a pixel map.  A pixel value models the
color of one pixel; PIL's convert("RGBA") returns a copy whose color values
are those of the input (alpha is constant 255 on a screenshot), so the copy
taken at the top of blur_regions_with_bboxs is the identity on this model and
the input image value is never written to. -/
structure PImage where
  width : Int
  height : Int
  pix : Int → Int → Nat

/-- Python min over the x or y coordinates of a bounding polygon (the
polygons produced by the OCR service always have four points; the value at
the empty list is irrelevant because the box is then degenerate and
skipped). -/
def intMinL : List Int → Int
  | [] => 0
  | x :: xs => xs.foldl min x

/-- Python max over the coordinates of a bounding polygon. -/
def intMaxL : List Int → Int
  | [] => 0
  | x :: xs => xs.foldl max x

/-- One iteration of the bbox loop of blur_regions_with_bboxs (src/utils/
utils.py lines 120-143): compute the axis-aligned bounds, skip degenerate
boxes, crop and blur the rectangle, draw the translated polygon into a fresh
mask and paste the blurred crop back through that mask.  `blur` is the
GaussianBlur oracle (PIL filters preserve the crop size, so it transforms
the pixel map); `raster` is the ImageDraw.polygon rasterization oracle: which
mask-local points the filled polygon covers.  PIL's paste clips to the image
bounds. -/
def pasteStep (blur : (Int → Int → Nat) → Int → Int → Nat)
    (raster : List (Int × Int) → Int → Int → Bool)
    (img : PImage) (bbox : List (Int × Int)) : PImage :=
  let xs := bbox.map Prod.fst
  let ys := bbox.map Prod.snd
  let mnx := intMinL xs
  let mxx := intMaxL xs
  let mny := intMinL ys
  let mxy := intMaxL ys
  if mxx ≤ mnx ∨ mxy ≤ mny then img
  else
    let blurred := blur (fun dx dy => img.pix (mnx + dx) (mny + dy))
    let pts := bbox.map (fun q => (q.1 - mnx, q.2 - mny))
    { img with pix := fun px py =>
        if raster pts (px - mnx) (py - mny) = true
            ∧ mnx ≤ px ∧ px < mxx ∧ mny ≤ py ∧ py < mxy
            ∧ 0 ≤ px ∧ px < img.width ∧ 0 ≤ py ∧ py < img.height
        then blurred (px - mnx) (py - mny)
        else img.pix px py }

/-- blur_regions_with_bboxs (src/utils/utils.py lines 105-145): fold the
paste step over the bounding boxes, starting from the RGBA copy of the
input. -/
def blur_regions_with_bboxs (blur : (Int → Int → Nat) → Int → Int → Nat)
    (raster : List (Int × Int) → Int → Int → Bool)
    (pil_img : PImage) (bboxes : List (List (Int × Int))) : PImage :=
  bboxes.foldl (pasteStep blur raster) pil_img

/-- A point lies in the rasterized mask polygon of a bounding box: the
translated polygon of the box covers the mask-local coordinates of the
point. -/
def rasterHit (raster : List (Int × Int) → Int → Int → Bool)
    (bbox : List (Int × Int)) (x y : Int) : Bool :=
  let mnx := intMinL (bbox.map Prod.fst)
  let mny := intMinL (bbox.map Prod.snd)
  raster (bbox.map (fun q => (q.1 - mnx, q.2 - mny))) (x - mnx) (y - mny)

/-- A pixel outside the rasterized polygon of a box is untouched by its paste
step. -/
theorem pasteStep_pix_untouched (blur : (Int → Int → Nat) → Int → Int → Nat)
    (raster : List (Int × Int) → Int → Int → Bool)
    (img : PImage) (bbox : List (Int × Int)) (x y : Int)
    (h : rasterHit raster bbox x y = false) :
    (pasteStep blur raster img bbox).pix x y = img.pix x y := by
  simp only [rasterHit] at h
  simp only [pasteStep]
  split
  · rfl
  · simp only []
    split
    · next hc => rw [h] at hc; exact absurd hc.1 (by simp)
    · rfl

/-- A pixel outside every rasterized polygon of a box list is untouched by
the whole redaction fold. -/
theorem blurRegions_pix_untouched (blur : (Int → Int → Nat) → Int → Int → Nat)
    (raster : List (Int × Int) → Int → Int → Bool) :
    ∀ (bboxes : List (List (Int × Int))) (img : PImage) (x y : Int),
      (∀ b ∈ bboxes, rasterHit raster b x y = false) →
      (blur_regions_with_bboxs blur raster img bboxes).pix x y = img.pix x y
  | [], _, _, _, _ => rfl
  | b :: bs, img, x, y, h => by
    have h1 := h b (List.mem_cons_self b bs)
    have hrest := blurRegions_pix_untouched blur raster bs (pasteStep blur raster img b) x y
      (fun b2 hb2 => h b2 (List.mem_cons_of_mem b hb2))
    calc (blur_regions_with_bboxs blur raster img (b :: bs)).pix x y
        = (pasteStep blur raster img b).pix x y := hrest
      _ = img.pix x y := pasteStep_pix_untouched blur raster img b x y h1

/-- One OCR chunk as consumed by the redaction step of record_activity: its
text and its bounding polygon (coordinates already converted to integers as
the source does with int(point)). -/
structure OCRChunk where
  text : Str
  text_bounding_box : List (Int × Int)

/-- The inner loop of ScreenshotActivityRecorder.record_activity (lines
113-116) for one chunk: one bbox copy is appended per sensitive sequence
contained in the lowercased chunk text. -/
def chunkMatchBoxes (seqs : List Str) (c : OCRChunk) : List (List (Int × Int)) :=
  (seqs.filter (fun sq => containsSub (c.text.map Char.toLower) sq)).map
    (fun _ => c.text_bounding_box)

/-- The bbox selection loop of record_activity over all chunks. -/
def selectPiiBboxes : List OCRChunk → List Str → List (List (Int × Int))
  | [], _ => []
  | c :: cs, seqs => chunkMatchBoxes seqs c ++ selectPiiBboxes cs seqs

/-- Every selected bounding box belongs to a chunk whose lowercased text
contains one of the sensitive sequences. -/
theorem mem_selectPiiBboxes {seqs : List Str} {b : List (Int × Int)} :
    ∀ {chunks : List OCRChunk}, b ∈ selectPiiBboxes chunks seqs →
      ∃ c, c ∈ chunks ∧ b = c.text_bounding_box ∧
        ∃ sq, sq ∈ seqs ∧ containsSub (c.text.map Char.toLower) sq = true
  | [], hb => absurd hb (by simp [selectPiiBboxes])
  | c :: cs, hb => by
    rcases List.mem_append.mp hb with hb | hb
    · obtain ⟨sq, hsq, hbeq⟩ := List.mem_map.mp hb
      obtain ⟨hsq1, hsq2⟩ := List.mem_filter.mp hsq
      exact ⟨c, List.mem_cons_self c cs, hbeq.symm, sq, hsq1, hsq2⟩
    · obtain ⟨c2, hc2, hrest⟩ := mem_selectPiiBboxes hb
      exact ⟨c2, List.mem_cons_of_mem c hc2, hrest⟩

/-- C6: frame property of the redactor.  For sensitive fragments that are
already lowercase (as both detector outputs are, being extracted from the
lowercased OCR text), every pixel outside the rasterized bounding polygons of
the chunks whose text contains some fragment as a case-insensitive substring
is byte-identical between the produced image and the original; the original
image value itself is the untouched input (the fold starts from the RGBA copy
and only ever builds new pixel maps). -/
theorem c6_redactor_frame_property
    (blur : (Int → Int → Nat) → Int → Int → Nat)
    (raster : List (Int × Int) → Int → Int → Bool)
    (img : PImage) (chunks : List OCRChunk) (seqs : List Str) (x y : Int)
    (hlow : ∀ sq ∈ seqs, sq.map Char.toLower = sq)
    (hout : ∀ c ∈ chunks,
      (∃ sq ∈ seqs, containsSub (c.text.map Char.toLower) (sq.map Char.toLower) = true) →
      rasterHit raster c.text_bounding_box x y = false) :
    (blur_regions_with_bboxs blur raster img (selectPiiBboxes chunks seqs)).pix x y
      = img.pix x y := by
  apply blurRegions_pix_untouched
  intro b hb
  obtain ⟨c, hc, hbeq, sq, hsq, hcs⟩ := mem_selectPiiBboxes hb
  rw [hbeq]
  exact hout c hc ⟨sq, hsq, by rw [hlow sq hsq]; exact hcs⟩

/-- C6, witness: one matching chunk, a concrete blur and rasterizer, and a
pixel away from the chunk polygon. -/
theorem c6_redactor_frame_property_witness :
    (∀ sq ∈ (["abc".toList] : List Str), sq.map Char.toLower = sq)
    ∧ (∀ c ∈ [OCRChunk.mk "xABCx".toList [(2, 2), (4, 2), (4, 4), (2, 4)]],
        (∃ sq ∈ (["abc".toList] : List Str),
          containsSub (c.text.map Char.toLower) (sq.map Char.toLower) = true) →
        rasterHit (fun _ dx dy => decide (0 ≤ dx ∧ dx ≤ 2 ∧ 0 ≤ dy ∧ dy ≤ 2))
          c.text_bounding_box 10 10 = false)
    ∧ (blur_regions_with_bboxs (fun f dx dy => f dx dy + 1)
        (fun _ dx dy => decide (0 ≤ dx ∧ dx ≤ 2 ∧ 0 ≤ dy ∧ dy ≤ 2))
        ⟨20, 20, fun _ _ => 5⟩
        (selectPiiBboxes [⟨"xABCx".toList, [(2, 2), (4, 2), (4, 4), (2, 4)]⟩]
          ["abc".toList])).pix 10 10
      = (⟨20, 20, fun _ _ => 5⟩ : PImage).pix 10 10 :=
  ⟨by decide, by decide,
   c6_redactor_frame_property (fun f dx dy => f dx dy + 1)
     (fun _ dx dy => decide (0 ≤ dx ∧ dx ≤ 2 ∧ 0 ≤ dy ∧ dy ≤ 2))
     ⟨20, 20, fun _ _ => 5⟩
     [⟨"xABCx".toList, [(2, 2), (4, 2), (4, 4), (2, 4)]⟩]
     ["abc".toList] 10 10 (by decide) (by decide)⟩

/- ## Heuristic PII scanner (src/utils/utils.py, extract_common_pii_sequences) -/

/-- ASCII decimal digit. -/
def isAsciiDigit (c : Char) : Bool := '0' ≤ c && c ≤ '9'

/-- The regex class [a-zA-Z]. -/
def isAsciiAlpha (c : Char) : Bool := ('a' ≤ c && c ≤ 'z') || ('A' ≤ c && c ≤ 'Z')

/-- ASCII letter or digit. -/
def isAsciiAlnum (c : Char) : Bool := isAsciiAlpha c || isAsciiDigit c

/-- The regex word class backslash-w (ASCII model of the scanned OCR text). -/
def isWordChar (c : Char) : Bool := isAsciiAlnum c || c = '_'

/-- The regex whitespace class backslash-s (ASCII model). -/
def isWs (c : Char) : Bool :=
  c = ' ' || c = '\t' || c = '\n' || c = '\r' || c = '\x0b' || c = '\x0c'

/-- The email regex class [A-Za-z0-9._%+-] of the local part. -/
def isLocalChar (c : Char) : Bool :=
  isAsciiAlnum c || c = '.' || c = '_' || c = '%' || c = '+' || c = '-'

/-- The email regex class [A-Za-z0-9.-] of the domain part. -/
def isDomainChar (c : Char) : Bool := isAsciiAlnum c || c = '.' || c = '-'

/-- A match of the first pre-clean pattern (whitespace run, at-sign,
whitespace run) anchored at the start of `t`; returns the number of
characters the match consumes.  Both runs are greedy and maximal: the
at-sign cannot occur inside a whitespace run, so the regex engine never
backtracks here. -/
def trySub1 (t : Str) : Option Nat :=
  let w1 := t.takeWhile isWs
  if w1.length = 0 then none
  else
    match (t.drop w1.length).head? with
    | some '@' =>
      let w2 := (t.drop (w1.length + 1)).takeWhile isWs
      if w2.length = 0 then none else some (w1.length + 1 + w2.length)
    | _ => none

/-- A successful anchored match of the first pre-clean pattern consumes at
least one character. -/
theorem trySub1_pos (t : Str) (n : Nat) (h : trySub1 t = some n) : 0 < n := by
  simp only [trySub1] at h
  split at h
  · exact absurd h (by simp)
  · split at h
    · split at h
      · exact absurd h (by simp)
      · injection h with h2
        omega
    · exact absurd h (by simp)

/-- The scan of the first pre-clean substitution, with explicit fuel so that
the definition is structurally recursive and kernel-evaluable; since a match
consumes at least one character (trySub1_pos), fuel equal to the remaining
length never runs out and the fuel-exhausted branch is unreachable from the
wrapper below. -/
def sub1F : Nat → Str → Str
  | 0, t => t
  | _ + 1, [] => []
  | f + 1, c :: rest =>
    match trySub1 (c :: rest) with
    | some n => '@' :: sub1F f ((c :: rest).drop n)
    | none => c :: sub1F f rest

/-- The first pre-clean substitution of extract_common_pii_sequences
(src/utils/utils.py line 165): replace every whitespace-at-whitespace run by
a bare at-sign, scanning left to right and continuing after each
replacement. -/
def sub1 (t : Str) : Str := sub1F t.length t

/-- A match of the second pre-clean pattern (at-sign, whitespace run, letter
run, whitespace run, letter run) anchored at the start of `t`; returns the
two captured letter groups and the consumed length.  Every run is greedy and
maximal; since a letter can never stand where a whitespace is required and
vice versa, the engine never backtracks here either. -/
def trySub2 (t : Str) : Option (Str × Str × Nat) :=
  match t with
  | '@' :: r1 =>
    let w1 := r1.takeWhile isWs
    if w1.length = 0 then none
    else
      let g1 := (r1.drop w1.length).takeWhile isAsciiAlpha
      if g1.length = 0 then none
      else
        let w2 := (r1.drop (w1.length + g1.length)).takeWhile isWs
        if w2.length = 0 then none
        else
          let g2 := (r1.drop (w1.length + g1.length + w2.length)).takeWhile isAsciiAlpha
          if g2.length = 0 then none
          else some (g1, g2, 1 + w1.length + g1.length + w2.length + g2.length)
  | _ => none

/-- A successful anchored match of the second pre-clean pattern consumes at
least one character. -/
theorem trySub2_pos (t : Str) (g1 g2 : Str) (n : Nat)
    (h : trySub2 t = some (g1, g2, n)) : 0 < n := by
  cases t with
  | nil => simp [trySub2] at h
  | cons c r1 =>
    simp only [trySub2] at h
    split at h
    · split at h
      · exact absurd h (by simp)
      · split at h
        · exact absurd h (by simp)
        · split at h
          · exact absurd h (by simp)
          · split at h
            · exact absurd h (by simp)
            · injection h with h2
              have h3 := congrArg (fun q => q.2.2) h2
              simp at h3
              omega
    · exact absurd h (by simp)

/-- The scan of the second pre-clean substitution, with explicit fuel as in
`sub1F` (a match consumes at least one character by trySub2_pos). -/
def sub2F : Nat → Str → Str
  | 0, t => t
  | _ + 1, [] => []
  | f + 1, c :: rest =>
    match trySub2 (c :: rest) with
    | some (g1, g2, n) => ('@' :: g1 ++ '.' :: g2) ++ sub2F f ((c :: rest).drop n)
    | none => c :: sub2F f rest

/-- The second pre-clean substitution of extract_common_pii_sequences
(src/utils/utils.py line 166): rewrite an at-sign followed by two
space-separated letter runs into at-sign, first run, dot, second run. -/
def sub2 (t : Str) : Str := sub2F t.length t

/-- The pre-clean normalization applied by extract_common_pii_sequences
before any pattern is scanned: fix spaces around the at-sign, then repair
space-separated domains. -/
def normalizePII (t : Str) : Str := sub2 (sub1 t)

/-- The regex word-boundary test between two adjacent positions (string ends
count as non-word). -/
def wordBoundary (pre nxt : Option Char) : Bool :=
  (match pre with | none => false | some c => isWordChar c)
    != (match nxt with | none => false | some c => isWordChar c)

/-- The candidate dot positions inside the greedy domain run, in the order
the backtracking engine tries them: rightmost first (the engine shortens the
greedy domain-part one character at a time, so later dots are reached
first). -/
def dotIdxsDesc (dom : Str) : List Nat :=
  ((List.range dom.length).filter (fun j => dom.get? j = some '.')).reverse

/-- Backtracking search for the dot-TLD tail of the email pattern inside the
text following the at-sign: for each candidate dot (rightmost first, never at
offset zero because the domain part before the dot must be nonempty), take
the maximal letter run after it; the tail matches when that run has at least
two letters and is followed by a word boundary.  A shorter letter run can
never help: the character after it would be a letter, hence no boundary, so
only the maximal run per dot needs checking. -/
def findTld (r1 : Str) : List Nat → Option Nat
  | [] => none
  | j :: rest =>
    if j = 0 then findTld r1 rest
    else
      let tld := (r1.drop (j + 1)).takeWhile isAsciiAlpha
      if tld.length < 2 then findTld r1 rest
      else
        match (r1.drop (j + 1 + tld.length)).head? with
        | none => some (j + 1 + tld.length)
        | some nc => if isWordChar nc then findTld r1 rest else some (j + 1 + tld.length)

/-- An anchored match of the email pattern of extract_common_pii_sequences
(src/utils/utils.py line 169) at the start of `t`, with `pre` the character
just before `t` (for the word-boundary test).  The local part is the maximal
run of local characters (the at-sign is not a local character, so the engine
cannot backtrack into it); then the dot-TLD tail is searched after the
at-sign.  Returns the consumed length. -/
def tryEmail (pre : Option Char) (t : Str) : Option Nat :=
  match t with
  | [] => none
  | c :: _ =>
    if wordBoundary pre (some c) then
      let lp := t.takeWhile isLocalChar
      if lp.length = 0 then none
      else
        match (t.drop lp.length).head? with
        | some '@' =>
          match findTld (t.drop (lp.length + 1))
              (dotIdxsDesc ((t.drop (lp.length + 1)).takeWhile isDomainChar)) with
          | none => none
          | some off => some (lp.length + 1 + off)
        | _ => none
    else none

/-- A successful anchored email match consumes at least one character. -/
theorem tryEmail_pos (pre : Option Char) (t : Str) (n : Nat)
    (h : tryEmail pre t = some n) : 0 < n := by
  cases t with
  | nil => simp [tryEmail] at h
  | cons c rest =>
    simp only [tryEmail] at h
    split at h
    · split at h
      · exact absurd h (by simp)
      · split at h
        · split at h
          · exact absurd h (by simp)
          · injection h with h2
            omega
        · exact absurd h (by simp)
    · exact absurd h (by simp)

/-- The findall scan of the email pattern, with explicit fuel as in `sub1F`
(a match consumes at least one character by tryEmail_pos). -/
def scanEmailsF : Nat → Option Char → Str → List Str
  | 0, _, _ => []
  | _ + 1, _, [] => []
  | f + 1, pre, c :: rest =>
    match tryEmail pre (c :: rest) with
    | some n =>
      (c :: rest).take n ::
        scanEmailsF f ((c :: rest).take n).getLast? ((c :: rest).drop n)
    | none => scanEmailsF f (some c) rest

/-- re.findall of the email pattern: scan left to right, emit each match and
continue right after it (the character before the resumption point is the
last character of the match, for the boundary test of the next candidate). -/
def scanEmails (pre : Option Char) (t : Str) : List Str :=
  scanEmailsF t.length pre t

/-- A take of a list is one of its leading segments. -/
theorem leadSeg_take : ∀ (t : Str) (n : Nat), leadSeg t (t.take n) = true
  | [], n => by cases n <;> rfl
  | _ :: _, 0 => rfl
  | c :: cs, n + 1 => by simp [leadSeg, leadSeg_take cs n]

/-- A leading segment is a substring. -/
theorem containsSub_of_leadSeg {t s : Str} (h : leadSeg t s = true) :
    containsSub t s = true := by
  unfold containsSub
  simp [h]

/-- A take of a string is one of its substrings. -/
theorem containsSub_take (t : Str) (n : Nat) : containsSub t (t.take n) = true :=
  containsSub_of_leadSeg (leadSeg_take t n)

/-- A substring survives prepending a character. -/
theorem containsSub_cons (c : Char) {t s : Str} (h : containsSub t s = true) :
    containsSub (c :: t) s = true := by
  unfold containsSub
  split
  · rfl
  · exact h

/-- A substring of a drop is a substring of the whole string. -/
theorem containsSub_of_drop : ∀ (n : Nat) (t s : Str),
    containsSub (t.drop n) s = true → containsSub t s = true
  | 0, _, _, h => by simpa using h
  | _ + 1, [], _, h => by simpa using h
  | n + 1, c :: cs, s, h =>
    containsSub_cons c (containsSub_of_drop n cs s (by simpa using h))

/-- Every string emitted by the fueled email scan is a contiguous substring
of the scanned text. -/
theorem scanEmailsF_containsSub :
    ∀ (fuel : Nat) (t : Str) (pre : Option Char) (s : Str),
      s ∈ scanEmailsF fuel pre t → containsSub t s = true
  | 0, t, _, s, hs => by simp [scanEmailsF] at hs
  | _ + 1, [], _, s, hs => by simp [scanEmailsF] at hs
  | f + 1, c :: rest, pre, s, hs => by
    simp only [scanEmailsF] at hs
    split at hs
    · rcases List.mem_cons.mp hs with hs | hs
      · rw [hs]
        exact containsSub_take _ _
      · exact containsSub_of_drop _ _ s (scanEmailsF_containsSub f _ _ s hs)
    · exact containsSub_cons c (scanEmailsF_containsSub f rest (some c) s hs)

/-- Every string emitted by the email scan is a contiguous substring of the
scanned text. -/
theorem scanEmails_containsSub (t : Str) (pre : Option Char) (s : Str)
    (hs : s ∈ scanEmails pre t) : containsSub t s = true :=
  scanEmailsF_containsSub t.length t pre s hs

/-- One re.findall result item: the whole match when the pattern has no
capturing group, or the tuple of group captures when it has some (the source
keeps item[0] of a tuple). -/
inductive ReMatch
  | whole (s : Str)
  | groups (g1 : Str) (gs : List Str)

/-- The string the source keeps from one findall item. -/
def reItemStr : ReMatch → Str
  | .whole s => s
  | .groups g1 _ => g1

/-- The documented contract of re.findall that the scanner relies on: every
whole match and every group capture is a contiguous slice of the scanned
text (a non-participating group yields the empty string, which is also a
substring).  The five non-email patterns (phone, card, code, SSN, password)
are consumed only through this contract. -/
def reOracleOk (oracle : Nat → Str → List ReMatch) : Prop :=
  ∀ (i : Nat) (t : Str) (m : ReMatch), m ∈ oracle i t → containsSub t (reItemStr m) = true

/-- extract_common_pii_sequences (src/utils/utils.py lines 151-185):
normalize the text, then scan the six patterns in order against the
normalized text and flatten the collected strings.  The email pattern is
modelled concretely; patterns 2 to 6 through the findall oracle. -/
def extract_common_pii_sequences (oracle : Nat → Str → List ReMatch)
    (text : Str) : List Str :=
  let t := normalizePII text
  scanEmails none t
    ++ (oracle 2 t).map reItemStr
    ++ (oracle 3 t).map reItemStr
    ++ (oracle 4 t).map reItemStr
    ++ (oracle 5 t).map reItemStr
    ++ (oracle 6 t).map reItemStr

/-- C10: every string returned by the heuristic scanner is a substring of the
normalized text (spaces collapsed around the at-sign, domain spaces
repaired), and on the OCR-mangled input "john@ gmail com" the scanner
returns a string (the repaired email john@gmail.com) that is NOT a substring
of the original input, so the downstream substring test of record_activity
against the raw chunk text can fail for a detected match. -/
theorem c10_pii_scanner_normalized_substrings (oracle : Nat → Str → List ReMatch)
    (hor : reOracleOk oracle) :
    (∀ (text s : Str), s ∈ extract_common_pii_sequences oracle text →
      containsSub (normalizePII text) s = true)
    ∧ (∃ s, s ∈ extract_common_pii_sequences oracle "john@ gmail com".toList
        ∧ containsSub "john@ gmail com".toList s = false) := by
  constructor
  · intro text s hs
    simp only [extract_common_pii_sequences, List.mem_append] at hs
    rcases hs with ((((hs | hs) | hs) | hs) | hs) | hs
    · exact scanEmails_containsSub _ none s hs
    · obtain ⟨m, hm, hms⟩ := List.mem_map.mp hs
      rw [← hms]; exact hor 2 _ m hm
    · obtain ⟨m, hm, hms⟩ := List.mem_map.mp hs
      rw [← hms]; exact hor 3 _ m hm
    · obtain ⟨m, hm, hms⟩ := List.mem_map.mp hs
      rw [← hms]; exact hor 4 _ m hm
    · obtain ⟨m, hm, hms⟩ := List.mem_map.mp hs
      rw [← hms]; exact hor 5 _ m hm
    · obtain ⟨m, hm, hms⟩ := List.mem_map.mp hs
      rw [← hms]; exact hor 6 _ m hm
  · refine ⟨"john@gmail.com".toList, ?_, by decide⟩
    simp only [extract_common_pii_sequences, List.mem_append]
    have hscan : scanEmails none (normalizePII "john@ gmail com".toList)
        = ["john@gmail.com".toList] := by decide
    exact Or.inl (Or.inl (Or.inl (Or.inl (Or.inl (by
      rw [hscan]; exact List.mem_cons_self _ _)))))

/-- C10, witness: the empty findall oracle satisfies the contract, and the
theorem instantiated at it. -/
theorem c10_pii_scanner_normalized_substrings_witness :
    reOracleOk (fun _ _ => [])
    ∧ ((∀ (text s : Str), s ∈ extract_common_pii_sequences (fun _ _ => []) text →
        containsSub (normalizePII text) s = true)
      ∧ (∃ s, s ∈ extract_common_pii_sequences (fun _ _ => []) "john@ gmail com".toList
          ∧ containsSub "john@ gmail com".toList s = false)) :=
  ⟨fun _ _ m hm => absurd hm (List.not_mem_nil m),
   c10_pii_scanner_normalized_substrings (fun _ _ => [])
     (fun _ _ m hm => absurd hm (List.not_mem_nil m))⟩
